import Mathlib

set_option maxRecDepth 10000

/-!
Verification of the `hike` HTTP server library (`src/lib.rs`).

The embedding models Rust strings as lists of Unicode scalar values
(`UStr := List Nat`) and byte buffers as lists of byte values
(`UBytes := List Nat`).  The filesystem and the TCP stream are abstracted:
a record of pure functions stands for `std::fs`, and the bytes deposited in
the 512-byte receive buffer are a parameter of the connection handler.
-/

/-- Unicode scalar-value strings: the model of Rust `String` / `&str`. -/
abbrev UStr := List Nat

/-- Byte buffers: the model of Rust `Vec<u8>` / `&[u8]`. -/
abbrev UBytes := List Nat

/-- Convert a Lean string literal into its scalar-value list. -/
def strOfString (s : String) : UStr := s.toList.map Char.toNat

/-- Abstraction of the filesystem calls used by `lib.rs`:
`metaOk p` models `fs::metadata(p).is_ok()`, `isDir p` models
`fs::metadata(p).unwrap().is_dir()`, and `read p` models `fs::read(p)`
(`none` is any `Err`). -/
structure FS where
  metaOk : UStr → Bool
  isDir : UStr → Bool
  read : UStr → Option UBytes

/-- Model of `Anchor` from `lib.rs`: a marker string and a callback
`fn() -> String`. -/
structure Anchor where
  marker : UStr
  function : Unit → UStr

/-- Model of `DynamicPage` from `lib.rs`. -/
structure DynamicPage where
  url : UStr
  anchors : List Anchor

/-- Model of `Server` from `lib.rs`. -/
structure Server where
  ip_address : UStr
  tcp_port : Nat
  debug : Bool
  root_dir : UStr
  std_page : UStr
  dynamic_pages : List DynamicPage

/-- `Server::new`: general defaults (root `"."`, debug off, page
`"index.html"`, no dynamic pages). -/
def Server.new (ip_address : UStr) (tcp_port : Nat) : Server :=
  { ip_address := ip_address
    tcp_port := tcp_port
    debug := false
    root_dir := strOfString "."
    std_page := strOfString "index.html"
    dynamic_pages := [] }

/-- `Server::debug`. -/
def Server.set_debug (self : Server) (debug : Bool) : Server :=
  { self with debug := debug }

/-- `Server::root_dir`: validates the path with `fs::metadata`; on success
replaces the configured root, otherwise returns the error message and
leaves the server unchanged.  (Named `set_root_dir` here because the field
already carries the Rust method's name.) -/
def Server.set_root_dir (self : Server) (root_dir : UStr) (fs : FS) :
    Server × Except UStr Unit :=
  if fs.metaOk root_dir then
    if fs.isDir root_dir then
      ({ self with root_dir := root_dir }, Except.ok ())
    else
      (self, Except.error (strOfString "Not a directory. Not applied."))
  else
    (self, Except.error (strOfString "Does not exists. Not applied."))

/-- `Server::std_page`. -/
def Server.set_std_page (self : Server) (std_page : UStr) : Server :=
  { self with std_page := std_page }

/-- `Server::insert_dynamic_page`: `Vec::push` appends at the end. -/
def Server.insert_dynamic_page (self : Server) (dynamic_page : DynamicPage) : Server :=
  { self with dynamic_pages := self.dynamic_pages ++ [dynamic_page] }

/-- Rust `char::is_whitespace`: the Unicode `White_Space` property. -/
def rustIsWhitespace (c : Nat) : Bool :=
  c = 0x9 || c = 0xA || c = 0xB || c = 0xC || c = 0xD || c = 0x20 ||
  c = 0x85 || c = 0xA0 || c = 0x1680 || (0x2000 ≤ c && c ≤ 0x200A) ||
  c = 0x2028 || c = 0x2029 || c = 0x202F || c = 0x205F || c = 0x3000

/-- Worker for `str::split_whitespace`: `acc` holds the reversed current
token; empty tokens are never emitted. -/
def splitWsAux : UStr → UStr → List UStr
  | acc, [] => if acc = [] then [] else [acc.reverse]
  | acc, c :: t =>
    if rustIsWhitespace c then
      if acc = [] then splitWsAux [] t else acc.reverse :: splitWsAux [] t
    else splitWsAux (c :: acc) t

/-- Model of `str::split_whitespace` (as a materialised list). -/
def splitWs (s : UStr) : List UStr := splitWsAux [] s

/-- Is `b` a UTF-8 continuation byte (`0x80..=0xBF`)? -/
def ucont (b : Nat) : Bool := 0x80 ≤ b && b ≤ 0xBF

/-- Admissible second byte of a multi-byte UTF-8 sequence with lead `b0`
(the ranges exclude overlong encodings, surrogates and values above
`0x10FFFF`, exactly as Rust's validator does). -/
def utf8Snd (b0 b1 : Nat) : Bool :=
  if b0 = 0xE0 then 0xA0 ≤ b1 && b1 ≤ 0xBF
  else if b0 = 0xED then 0x80 ≤ b1 && b1 ≤ 0x9F
  else if b0 = 0xF0 then 0x90 ≤ b1 && b1 ≤ 0xBF
  else if b0 = 0xF4 then 0x80 ≤ b1 && b1 ≤ 0x8F
  else ucont b1

/-- The scalar value encoded by a two-byte UTF-8 sequence. -/
def dec2 (b0 b1 : Nat) : Nat := (b0 - 0xC0) * 0x40 + (b1 - 0x80)

/-- The scalar value encoded by a three-byte UTF-8 sequence. -/
def dec3 (b0 b1 b2 : Nat) : Nat :=
  (b0 - 0xE0) * 0x1000 + (b1 - 0x80) * 0x40 + (b2 - 0x80)

/-- The scalar value encoded by a four-byte UTF-8 sequence. -/
def dec4 (b0 b1 b2 b3 : Nat) : Nat :=
  (b0 - 0xF0) * 0x40000 + (b1 - 0x80) * 0x1000 + (b2 - 0x80) * 0x40 + (b3 - 0x80)

/-- Model of `String::from_utf8_lossy`: decode UTF-8, replacing each
maximal invalid subpart with `U+FFFD` (Rust's substitution policy: an
invalid lead byte is skipped alone; a valid partial sequence is skipped up
to, but not including, the first offending byte).  The four top-level list
patterns keep the recursion structural. -/
def utf8LossyDecode : UBytes → UStr
  | [] => []
  | [b0] =>
    if b0 < 0x80 then [b0] else [0xFFFD]
  | [b0, b1] =>
    if b0 < 0x80 then b0 :: utf8LossyDecode [b1]
    else if 0xC2 ≤ b0 && b0 ≤ 0xDF then
      if ucont b1 then [dec2 b0 b1] else 0xFFFD :: utf8LossyDecode [b1]
    else if (0xE0 ≤ b0 && b0 ≤ 0xEF) || (0xF0 ≤ b0 && b0 ≤ 0xF4) then
      if utf8Snd b0 b1 then [0xFFFD] else 0xFFFD :: utf8LossyDecode [b1]
    else 0xFFFD :: utf8LossyDecode [b1]
  | [b0, b1, b2] =>
    if b0 < 0x80 then b0 :: utf8LossyDecode [b1, b2]
    else if 0xC2 ≤ b0 && b0 ≤ 0xDF then
      if ucont b1 then dec2 b0 b1 :: utf8LossyDecode [b2]
      else 0xFFFD :: utf8LossyDecode [b1, b2]
    else if 0xE0 ≤ b0 && b0 ≤ 0xEF then
      if utf8Snd b0 b1 then
        if ucont b2 then [dec3 b0 b1 b2] else 0xFFFD :: utf8LossyDecode [b2]
      else 0xFFFD :: utf8LossyDecode [b1, b2]
    else if 0xF0 ≤ b0 && b0 ≤ 0xF4 then
      if utf8Snd b0 b1 then
        if ucont b2 then [0xFFFD] else 0xFFFD :: utf8LossyDecode [b2]
      else 0xFFFD :: utf8LossyDecode [b1, b2]
    else 0xFFFD :: utf8LossyDecode [b1, b2]
  | b0 :: b1 :: b2 :: b3 :: rest =>
    if b0 < 0x80 then b0 :: utf8LossyDecode (b1 :: b2 :: b3 :: rest)
    else if 0xC2 ≤ b0 && b0 ≤ 0xDF then
      if ucont b1 then dec2 b0 b1 :: utf8LossyDecode (b2 :: b3 :: rest)
      else 0xFFFD :: utf8LossyDecode (b1 :: b2 :: b3 :: rest)
    else if 0xE0 ≤ b0 && b0 ≤ 0xEF then
      if utf8Snd b0 b1 then
        if ucont b2 then dec3 b0 b1 b2 :: utf8LossyDecode (b3 :: rest)
        else 0xFFFD :: utf8LossyDecode (b2 :: b3 :: rest)
      else 0xFFFD :: utf8LossyDecode (b1 :: b2 :: b3 :: rest)
    else if 0xF0 ≤ b0 && b0 ≤ 0xF4 then
      if utf8Snd b0 b1 then
        if ucont b2 then
          if ucont b3 then dec4 b0 b1 b2 b3 :: utf8LossyDecode rest
          else 0xFFFD :: utf8LossyDecode (b3 :: rest)
        else 0xFFFD :: utf8LossyDecode (b2 :: b3 :: rest)
      else 0xFFFD :: utf8LossyDecode (b1 :: b2 :: b3 :: rest)
    else 0xFFFD :: utf8LossyDecode (b1 :: b2 :: b3 :: rest)

/-- Strict UTF-8 validity of a byte sequence (Rust `str::from_utf8(..).is_ok()`),
with the same case structure as the lossy decoder. -/
def utf8Valid : UBytes → Bool
  | [] => true
  | [b0] => b0 < 0x80
  | [b0, b1] =>
    if b0 < 0x80 then utf8Valid [b1]
    else if 0xC2 ≤ b0 && b0 ≤ 0xDF then ucont b1
    else false
  | [b0, b1, b2] =>
    if b0 < 0x80 then utf8Valid [b1, b2]
    else if 0xC2 ≤ b0 && b0 ≤ 0xDF then ucont b1 && utf8Valid [b2]
    else if 0xE0 ≤ b0 && b0 ≤ 0xEF then utf8Snd b0 b1 && ucont b2
    else false
  | b0 :: b1 :: b2 :: b3 :: rest =>
    if b0 < 0x80 then utf8Valid (b1 :: b2 :: b3 :: rest)
    else if 0xC2 ≤ b0 && b0 ≤ 0xDF then ucont b1 && utf8Valid (b2 :: b3 :: rest)
    else if 0xE0 ≤ b0 && b0 ≤ 0xEF then
      utf8Snd b0 b1 && ucont b2 && utf8Valid (b3 :: rest)
    else if 0xF0 ≤ b0 && b0 ≤ 0xF4 then
      utf8Snd b0 b1 && ucont b2 && ucont b3 && utf8Valid rest
    else false

/-- UTF-8 encoding of one scalar value (`char::encode_utf8`). -/
def utf8EncodeChar (c : Nat) : UBytes :=
  if c < 0x80 then [c]
  else if c < 0x800 then [0xC0 + c / 0x40, 0x80 + c % 0x40]
  else if c < 0x10000 then
    [0xE0 + c / 0x1000, 0x80 + c / 0x40 % 0x40, 0x80 + c % 0x40]
  else
    [0xF0 + c / 0x40000, 0x80 + c / 0x1000 % 0x40, 0x80 + c / 0x40 % 0x40,
      0x80 + c % 0x40]

/-- Model of `str::as_bytes` for a scalar-value string. -/
def utf8Encode (s : UStr) : UBytes := List.flatten (s.map utf8EncodeChar)

/-- Rust `str::contains(pat)`: `pat` occurs as a contiguous substring
(the empty pattern always matches). -/
def containsSub (pat : UStr) : UStr → Bool
  | [] => pat.isPrefixOf []
  | c :: t => pat.isPrefixOf (c :: t) || containsSub pat t

/-- Worker for the leftmost, non-overlapping scan of `str::replace`: when
the skip counter is positive the character belongs to an already-matched
occurrence and is dropped; at skip `0` a match emits `rep` and skips the
rest of the pattern.  The counter keeps the recursion structural. -/
def replaceAllGo (pat rep : UStr) : Nat → UStr → UStr
  | _, [] => []
  | Nat.succ k, _ :: t => replaceAllGo pat rep k t
  | 0, c :: t =>
    if pat.isPrefixOf (c :: t) then rep ++ replaceAllGo pat rep (pat.length - 1) t
    else c :: replaceAllGo pat rep 0 t

/-- Leftmost, non-overlapping replacement of a non-empty pattern
(the core of `str::replace`). -/
def replaceAllPos (pat rep : UStr) (s : UStr) : UStr := replaceAllGo pat rep 0 s

/-- Rust `str::replace(pat, rep)`.  An empty pattern matches at every char
boundary, including both ends, so `"ab".replace("", "X") = "XaXbX"`. -/
def replaceAll (pat rep : UStr) (s : UStr) : UStr :=
  if pat = [] then rep ++ List.flatten (s.map fun c => c :: rep)
  else replaceAllPos pat rep s

/-- Worker for the segment split, with the same skip counter as
`replaceAllGo`. -/
def splitOnSubGo (pat : UStr) : Nat → UStr → List UStr
  | _, [] => [[]]
  | Nat.succ k, _ :: t => splitOnSubGo pat k t
  | 0, c :: t =>
    if pat.isPrefixOf (c :: t) then [] :: splitOnSubGo pat (pat.length - 1) t
    else
      match splitOnSubGo pat 0 t with
      | [] => [[c]]
      | s :: rest => (c :: s) :: rest

/-- The segments of `s` between leftmost non-overlapping occurrences of
the (non-empty) pattern, in order (Rust `str::split(pat)`). -/
def splitOnSubPos (pat : UStr) (s : UStr) : List UStr := splitOnSubGo pat 0 s

/-- Worker for the occurrence count, with the same skip counter as
`replaceAllGo`. -/
def countOccGo (pat : UStr) : Nat → UStr → Nat
  | _, [] => 0
  | Nat.succ k, _ :: t => countOccGo pat k t
  | 0, c :: t =>
    if pat.isPrefixOf (c :: t) then countOccGo pat (pat.length - 1) t + 1
    else countOccGo pat 0 t

/-- Number of leftmost non-overlapping occurrences of the (non-empty)
pattern in `s` (Rust `str::matches(pat).count()`). -/
def countOccPos (pat : UStr) (s : UStr) : Nat := countOccGo pat 0 s

/-- Join a list of segments, inserting `sep` between neighbours. -/
def joinWith (sep : UStr) : List UStr → UStr
  | [] => []
  | [x] => x
  | x :: y :: rest => x ++ sep ++ joinWith sep (y :: rest)

/-- One pass of the loop body of the substitution loop in
`Server::handle_connection`: replace the marker when it is contained in the
current content.  The second component records how many times
`anchor.function` was invoked by this step (`1` in the replace branch,
`0` otherwise). -/
def anchorStep (content : UStr) (a : Anchor) : UStr × Nat :=
  if containsSub a.marker content then
    (replaceAll a.marker (a.function ()) content, 1)
  else (content, 0)

/-- The `for anchor in &dynamic_page.anchors` loop of
`Server::handle_connection`, instrumented with the per-anchor invocation
counts of the callbacks (in registration order). -/
def applyAnchors : List Anchor → UStr → UStr × List Nat
  | [], content => (content, [])
  | a :: rest, content =>
    let p := anchorStep content a
    let q := applyAnchors rest p.1
    (q.1, p.2 :: q.2)

/-- The dynamic-page lookup of `Server::handle_connection`:
`dynamic_pages.iter().filter(|x| x.url == url).collect().get(0)`. -/
def selectedPage (dynamic_pages : List DynamicPage) (url : UStr) : Option DynamicPage :=
  (dynamic_pages.filter (fun x => x.url == url))[0]?

/-- `Server::get_path`.  `none` models the panic of
`url.chars().last().unwrap()` on an empty URL; `47` is the scalar value of
the path separator. -/
def get_path (url std_page root_dir : UStr) (fs : FS) : Option UStr :=
  match url.getLast? with
  | none => none
  | some c =>
    if c = 47 then some (root_dir ++ url ++ std_page)
    else if fs.metaOk (root_dir ++ url) && fs.isDir (root_dir ++ url) then
      some (root_dir ++ url ++ [47] ++ std_page)
    else some (root_dir ++ url)

/-- The 512-byte receive buffer: the bytes obtained from `stream.read`
followed by the zero initialisation of the remainder
(`let mut buffer = [0; 512]`). -/
def bufferOf (readBytes : UBytes) : UBytes :=
  readBytes ++ List.replicate (512 - readBytes.length) 0

/-- Outcome of one run of `Server::handle_connection`. -/
inductive ConnResult where
  | silent : ConnResult
  | panicked : ConnResult
  | sent : UBytes → List Nat → ConnResult
deriving DecidableEq

/-- The `fs::read` step of `Server::handle_connection`: the status text
together with the loaded body (empty body on any read error). -/
def loadFile (fs : FS) (path : UStr) : UStr × UBytes :=
  match fs.read path with
  | some file => (strOfString "200 OK", file)
  | none => (strOfString "404 Not Found", [])

/-- The substitution step of `Server::handle_connection`: when a dynamic
page matches the requested URL, decode the body lossily, run the anchor
loop and re-encode; otherwise pass the bytes through.  The second
component is the per-anchor callback invocation count list. -/
def substitutePhase (server : Server) (url : UStr) (file_contents : UBytes) :
    UBytes × List Nat :=
  match selectedPage server.dynamic_pages url with
  | none => (file_contents, [])
  | some dynamic_page =>
    let p := applyAnchors dynamic_page.anchors (utf8LossyDecode file_contents)
    (utf8Encode p.1, p.2)

/-- The response framing of `Server::handle_connection`:
`format!("HTTP/1.1 {}\r\n\r\n", http_result).as_bytes()` followed by the
body bytes. -/
def respond (http_result : UStr) (body : UBytes) : UBytes :=
  utf8Encode (strOfString "HTTP/1.1 " ++ http_result ++ strOfString "\r\n\r\n") ++ body

/-- `Server::handle_connection` after the request line has been parsed
into a URL: resolve, load, substitute, frame. -/
def handleParsed (server : Server) (fs : FS) (url : UStr) : ConnResult :=
  match get_path url server.std_page server.root_dir fs with
  | none => ConnResult.panicked
  | some path =>
    ConnResult.sent
      (respond (loadFile fs path).1
        (substitutePhase server url (loadFile fs path).2).1)
      (substitutePhase server url (loadFile fs path).2).2

/-- `Server::handle_connection`, over the bytes the single `stream.read`
call deposited in the buffer.  `silent` is the early `return` (no bytes
written), `panicked` is the `unwrap` panic inside `get_path`, and
`sent bytes counts` is the written response together with the per-anchor
callback invocation counts of the substitution loop. -/
def handle_connection (server : Server) (fs : FS) (readBytes : UBytes) : ConnResult :=
  let request_content := utf8LossyDecode (bufferOf readBytes)
  match (splitWs request_content).get? 1 with
  | none => ConnResult.silent
  | some url => handleParsed server fs url

/-- Modelled directly from the spec's description of the Path Resolver
(§4.2, steps 1-3), for comparison with `get_path`. -/
def get_path_spec (url std_page root_dir : UStr) (fs : FS) : UStr :=
  if url.getLast? = some 47 then root_dir ++ url ++ std_page
  else if fs.metaOk (root_dir ++ url) && fs.isDir (root_dir ++ url) then
    root_dir ++ url ++ [47] ++ std_page
  else root_dir ++ url

/-- A filesystem on which every metadata lookup and read fails. -/
def fsEmpty : FS := ⟨fun _ => false, fun _ => false, fun _ => none⟩

/-- A server with the constructor defaults, used as a concrete input. -/
def serverW : Server := Server.new (strOfString "127.0.0.1") 8080

/-- A dynamic page with no anchors, used as a concrete input. -/
def dpW : DynamicPage := ⟨strOfString "/dynamic.html", []⟩

/-- Is `c` a Unicode scalar value (what a Rust `char` can hold)? -/
def isUSV (c : Nat) : Bool := c < 0xD800 || (0xE000 ≤ c && c < 0x110000)

/-- A concrete request line whose second token is `/x`. -/
def reqX : UBytes := strOfString "GET /x HTTP/1.1"

/-- An anchor whose callback returns its own marker. -/
def anchorSelf : Anchor := ⟨strOfString "a", fun _ => strOfString "a"⟩

/-- A dynamic page for `/x` carrying `anchorSelf`. -/
def pageSelf : DynamicPage := ⟨strOfString "/x", [anchorSelf]⟩

/-- A server that registers `pageSelf`. -/
def serverSelf : Server := { serverW with dynamic_pages := [pageSelf] }

/-- A filesystem whose every read yields the one-byte file `"a"`. -/
def fsReadA : FS := ⟨fun _ => false, fun _ => false, fun _ => some (strOfString "a")⟩

/-- An anchor with an empty marker. -/
def anchorEmptyMarker : Anchor := ⟨[], fun _ => strOfString "X"⟩

/-- A dynamic page for `/x` carrying `anchorEmptyMarker`. -/
def pageEmptyMarker : DynamicPage := ⟨strOfString "/x", [anchorEmptyMarker]⟩

/-- A server that registers `pageEmptyMarker`. -/
def serverEmptyMarker : Server := { serverW with dynamic_pages := [pageEmptyMarker] }

/-- An anchor replacing `"A"` by `"B"`. -/
def anchorAB : Anchor := ⟨strOfString "A", fun _ => strOfString "B"⟩

/-- An anchor replacing `"B"` by `"C"`. -/
def anchorBC : Anchor := ⟨strOfString "B", fun _ => strOfString "C"⟩

/-- A dynamic page for `/x` chaining `anchorAB` then `anchorBC`. -/
def pageChain : DynamicPage := ⟨strOfString "/x", [anchorAB, anchorBC]⟩

/-- A server that registers `pageChain`. -/
def serverChain : Server := { serverW with dynamic_pages := [pageChain] }

/-- A filesystem whose every read yields the one-byte file `"A"`. -/
def fsReadCapA : FS := ⟨fun _ => false, fun _ => false, fun _ => some (strOfString "A")⟩

/-- An anchor whose marker `"Z"` occurs in none of the concrete files used
here. -/
def anchorAbsent : Anchor := ⟨strOfString "Z", fun _ => strOfString "W"⟩

/-- A dynamic page for `/x` carrying only `anchorAbsent`. -/
def pageNoHit : DynamicPage := ⟨strOfString "/x", [anchorAbsent]⟩

/-- A server that registers `pageNoHit`. -/
def serverNoHit : Server := { serverW with dynamic_pages := [pageNoHit] }

/-- A filesystem whose every read yields the invalid UTF-8 file `[0xFF]`. -/
def fsReadFF : FS := ⟨fun _ => false, fun _ => false, fun _ => some [0xFF]⟩

/-! ## Theorems -/

theorem splitWsAux_ne_nil :
    ∀ (s acc : UStr), ∀ t ∈ splitWsAux acc s, t ≠ [] := by
  intro s
  induction s with
  | nil =>
    intro acc t ht
    unfold splitWsAux at ht
    split at ht
    · simp at ht
    · next h =>
      simp only [List.mem_singleton] at ht
      subst ht
      simpa using h
  | cons c s ih =>
    intro acc t ht
    unfold splitWsAux at ht
    split at ht
    · split at ht
      · exact ih [] t ht
      · next h =>
        rcases List.mem_cons.mp ht with h1 | h1
        · subst h1; simpa using h
        · exact ih [] t h1
    · exact ih (c :: acc) t ht

theorem mem_splitWs_ne_nil (s : UStr) : ∀ t ∈ splitWs s, t ≠ [] :=
  splitWsAux_ne_nil s []

theorem get_path_isSome (url std_page root_dir : UStr) (fs : FS) (h : url ≠ []) :
    get_path url std_page root_dir fs = some (get_path_spec url std_page root_dir fs) := by
  obtain ⟨c, hc⟩ := Option.isSome_iff_exists.mp (List.getLast?_isSome.mpr h)
  unfold get_path get_path_spec
  rw [hc]
  by_cases h47 : c = 47
  · subst h47
    simp [hc]
  · simp only [hc, Option.some.injEq, h47, if_false]
    split <;> rfl

theorem handleParsed_eq (server : Server) (fs : FS) (url : UStr) (hne : url ≠ []) :
    handleParsed server fs url =
      ConnResult.sent
        (respond (loadFile fs (get_path_spec url server.std_page server.root_dir fs)).1
          (substitutePhase server url
            (loadFile fs (get_path_spec url server.std_page server.root_dir fs)).2).1)
        (substitutePhase server url
          (loadFile fs (get_path_spec url server.std_page server.root_dir fs)).2).2 := by
  unfold handleParsed
  rw [get_path_isSome url server.std_page server.root_dir fs hne]

theorem handle_connection_no_panic (server : Server) (fs : FS) (readBytes : UBytes) :
    handle_connection server fs readBytes ≠ ConnResult.panicked := by
  simp only [handle_connection]
  cases htok : (splitWs (utf8LossyDecode (bufferOf readBytes))).get? 1 with
  | none => simp
  | some url =>
    have hne : url ≠ [] := mem_splitWs_ne_nil _ url (List.get?_mem htok)
    show handleParsed server fs url ≠ ConnResult.panicked
    rw [handleParsed_eq server fs url hne]
    simp

theorem set_root_dir_cases (s : Server) (p : UStr) (fs : FS) :
    (fs.metaOk p = false →
      s.set_root_dir p fs = (s, Except.error (strOfString "Does not exists. Not applied."))) ∧
    (fs.metaOk p = true → fs.isDir p = false →
      s.set_root_dir p fs = (s, Except.error (strOfString "Not a directory. Not applied."))) ∧
    (fs.metaOk p = true → fs.isDir p = true →
      s.set_root_dir p fs = ({ s with root_dir := p }, Except.ok ())) ∧
    ((s.set_root_dir p fs).1.ip_address = s.ip_address ∧
      (s.set_root_dir p fs).1.tcp_port = s.tcp_port ∧
      (s.set_root_dir p fs).1.debug = s.debug ∧
      (s.set_root_dir p fs).1.std_page = s.std_page ∧
      (s.set_root_dir p fs).1.dynamic_pages = s.dynamic_pages) := by
  cases hm : fs.metaOk p <;> cases hd : fs.isDir p <;>
    simp [Server.set_root_dir, hm, hd]

theorem selectedPage_eq_find (pages : List DynamicPage) (url : UStr) :
    selectedPage pages url = pages.find? (fun x => x.url == url) := by
  induction pages with
  | nil => rfl
  | cons d rest ih =>
    simp only [selectedPage] at ih ⊢
    cases h : (d.url == url) <;>
      simp [List.filter_cons, List.find?_cons, h, ih]

/-- C2: the path resolver tries, in order: trailing separator, existing
directory, plain concatenation, and returns the corresponding path. -/
theorem get_path_three_cases (url std_page root_dir : UStr) (fs : FS) (h : url ≠ []) :
    (url.getLast? = some 47 →
      get_path url std_page root_dir fs = some (root_dir ++ url ++ std_page)) ∧
    (url.getLast? ≠ some 47 →
      fs.metaOk (root_dir ++ url) = true → fs.isDir (root_dir ++ url) = true →
      get_path url std_page root_dir fs = some (root_dir ++ url ++ [47] ++ std_page)) ∧
    (url.getLast? ≠ some 47 →
      ¬(fs.metaOk (root_dir ++ url) = true ∧ fs.isDir (root_dir ++ url) = true) →
      get_path url std_page root_dir fs = some (root_dir ++ url)) ∧
    get_path url std_page root_dir fs = some (get_path_spec url std_page root_dir fs) := by
  have hmain := get_path_isSome url std_page root_dir fs h
  refine ⟨?_, ?_, ?_, hmain⟩
  · intro h47
    rw [hmain]
    unfold get_path_spec
    rw [if_pos h47]
  · intro h47 hm hd
    rw [hmain]
    unfold get_path_spec
    rw [if_neg h47, if_pos (by simp [hm, hd])]
  · intro h47 hnd
    rw [hmain]
    unfold get_path_spec
    rw [if_neg h47, if_neg (by simpa using hnd)]

/-- Witness for `get_path_three_cases` at a concrete input. -/
theorem get_path_three_cases_witness :
    get_path (strOfString "/a") (strOfString "index.html") (strOfString ".") fsEmpty =
      some (strOfString "." ++ strOfString "/a") :=
  (get_path_three_cases (strOfString "/a") (strOfString "index.html") (strOfString ".")
    fsEmpty (by decide)).2.2.1 (by decide) (by decide)

/-- C3: `set_root_dir` rejects a missing path and a non-directory, leaving
the server untouched, and on success replaces only the root directory. -/
theorem set_root_dir_validates (s : Server) (p : UStr) (fs : FS) :
    (fs.metaOk p = false →
      s.set_root_dir p fs = (s, Except.error (strOfString "Does not exists. Not applied."))) ∧
    (fs.metaOk p = true → fs.isDir p = false →
      s.set_root_dir p fs = (s, Except.error (strOfString "Not a directory. Not applied."))) ∧
    (fs.metaOk p = true → fs.isDir p = true →
      s.set_root_dir p fs = ({ s with root_dir := p }, Except.ok ())) ∧
    ((s.set_root_dir p fs).1.ip_address = s.ip_address ∧
      (s.set_root_dir p fs).1.tcp_port = s.tcp_port ∧
      (s.set_root_dir p fs).1.debug = s.debug ∧
      (s.set_root_dir p fs).1.std_page = s.std_page ∧
      (s.set_root_dir p fs).1.dynamic_pages = s.dynamic_pages) :=
  set_root_dir_cases s p fs

/-- Witness for `set_root_dir_validates` at a concrete input. -/
theorem set_root_dir_validates_witness :
    serverW.set_root_dir (strOfString "/tmp") fsEmpty =
      (serverW, Except.error (strOfString "Does not exists. Not applied.")) :=
  (set_root_dir_validates serverW (strOfString "/tmp") fsEmpty).1 rfl

/-- C5: the dynamic-page lookup is an exact-equality first match: it
equals `find?` on the registry, a returned entry's `url` equals the
requested URL, a first entry with the requested URL wins over duplicates,
and no response entry is returned when no `url` field matches exactly. -/
theorem selectedPage_exact_first_match (pages : List DynamicPage) (url : UStr) :
    selectedPage pages url = pages.find? (fun x => x.url == url) ∧
    (∀ d, selectedPage pages url = some d → d.url = url) ∧
    (∀ d rest, d.url = url → selectedPage (d :: rest) url = some d) ∧
    ((∀ d ∈ pages, d.url ≠ url) → selectedPage pages url = none) := by
  refine ⟨selectedPage_eq_find pages url, ?_, ?_, ?_⟩
  · intro d hd
    rw [selectedPage_eq_find] at hd
    have hp := List.find?_some hd
    simp only [beq_iff_eq] at hp
    exact hp
  · intro d rest hd
    rw [selectedPage_eq_find]
    simp [List.find?_cons, hd]
  · intro hall
    rw [selectedPage_eq_find, List.find?_eq_none]
    intro x hx
    simp [hall x hx]

/-- Witness for `selectedPage_exact_first_match`: with a duplicated URL the
first entry is returned. -/
theorem selectedPage_exact_first_match_witness :
    selectedPage (dpW :: [dpW]) (strOfString "/dynamic.html") = some dpW :=
  (selectedPage_exact_first_match [] (strOfString "/dynamic.html")).2.2.1 dpW [dpW] rfl

theorem replaceAllGo_skip (pat rep : UStr) :
    ∀ (s : UStr) (k : Nat), replaceAllGo pat rep k s = replaceAllGo pat rep 0 (s.drop k) := by
  intro s
  induction s with
  | nil => intro k; cases k <;> rfl
  | cons c t ih =>
    intro k
    cases k with
    | zero => rfl
    | succ j =>
      show replaceAllGo pat rep j t = _
      rw [List.drop_succ_cons]
      exact ih j

theorem splitOnSubGo_skip (pat : UStr) :
    ∀ (s : UStr) (k : Nat), splitOnSubGo pat k s = splitOnSubGo pat 0 (s.drop k) := by
  intro s
  induction s with
  | nil => intro k; cases k <;> rfl
  | cons c t ih =>
    intro k
    cases k with
    | zero => rfl
    | succ j =>
      show splitOnSubGo pat j t = _
      rw [List.drop_succ_cons]
      exact ih j

theorem countOccGo_skip (pat : UStr) :
    ∀ (s : UStr) (k : Nat), countOccGo pat k s = countOccGo pat 0 (s.drop k) := by
  intro s
  induction s with
  | nil => intro k; cases k <;> rfl
  | cons c t ih =>
    intro k
    cases k with
    | zero => rfl
    | succ j =>
      show countOccGo pat j t = _
      rw [List.drop_succ_cons]
      exact ih j

theorem replaceAllPos_cons_pos (pat rep : UStr) (c : Nat) (t : UStr)
    (h : pat.isPrefixOf (c :: t) = true) :
    replaceAllPos pat rep (c :: t) = rep ++ replaceAllPos pat rep (t.drop (pat.length - 1)) := by
  show replaceAllGo pat rep 0 (c :: t) = _
  rw [show replaceAllGo pat rep 0 (c :: t) =
      if pat.isPrefixOf (c :: t) then rep ++ replaceAllGo pat rep (pat.length - 1) t
      else c :: replaceAllGo pat rep 0 t from rfl]
  rw [if_pos h, replaceAllGo_skip pat rep t (pat.length - 1)]
  rfl

theorem replaceAllPos_cons_neg (pat rep : UStr) (c : Nat) (t : UStr)
    (h : pat.isPrefixOf (c :: t) = false) :
    replaceAllPos pat rep (c :: t) = c :: replaceAllPos pat rep t := by
  show replaceAllGo pat rep 0 (c :: t) = _
  rw [show replaceAllGo pat rep 0 (c :: t) =
      if pat.isPrefixOf (c :: t) then rep ++ replaceAllGo pat rep (pat.length - 1) t
      else c :: replaceAllGo pat rep 0 t from rfl]
  rw [if_neg (by simp [h])]
  rfl

theorem splitOnSubPos_cons_pos (pat : UStr) (c : Nat) (t : UStr)
    (h : pat.isPrefixOf (c :: t) = true) :
    splitOnSubPos pat (c :: t) = [] :: splitOnSubPos pat (t.drop (pat.length - 1)) := by
  show splitOnSubGo pat 0 (c :: t) = _
  rw [show splitOnSubGo pat 0 (c :: t) =
      if pat.isPrefixOf (c :: t) then [] :: splitOnSubGo pat (pat.length - 1) t
      else match splitOnSubGo pat 0 t with
        | [] => [[c]]
        | s :: rest => (c :: s) :: rest from rfl]
  rw [if_pos h, splitOnSubGo_skip pat t (pat.length - 1)]
  rfl

theorem splitOnSubPos_cons_neg (pat : UStr) (c : Nat) (t : UStr)
    (h : pat.isPrefixOf (c :: t) = false) :
    splitOnSubPos pat (c :: t) =
      match splitOnSubPos pat t with
      | [] => [[c]]
      | s :: rest => (c :: s) :: rest := by
  show splitOnSubGo pat 0 (c :: t) = _
  rw [show splitOnSubGo pat 0 (c :: t) =
      if pat.isPrefixOf (c :: t) then [] :: splitOnSubGo pat (pat.length - 1) t
      else match splitOnSubGo pat 0 t with
        | [] => [[c]]
        | s :: rest => (c :: s) :: rest from rfl]
  rw [if_neg (by simp [h])]
  rfl

theorem countOccPos_cons_pos (pat : UStr) (c : Nat) (t : UStr)
    (h : pat.isPrefixOf (c :: t) = true) :
    countOccPos pat (c :: t) = countOccPos pat (t.drop (pat.length - 1)) + 1 := by
  show countOccGo pat 0 (c :: t) = _
  rw [show countOccGo pat 0 (c :: t) =
      if pat.isPrefixOf (c :: t) then countOccGo pat (pat.length - 1) t + 1
      else countOccGo pat 0 t from rfl]
  rw [if_pos h, countOccGo_skip pat t (pat.length - 1)]
  rfl

theorem countOccPos_cons_neg (pat : UStr) (c : Nat) (t : UStr)
    (h : pat.isPrefixOf (c :: t) = false) :
    countOccPos pat (c :: t) = countOccPos pat t := by
  show countOccGo pat 0 (c :: t) = _
  rw [show countOccGo pat 0 (c :: t) =
      if pat.isPrefixOf (c :: t) then countOccGo pat (pat.length - 1) t + 1
      else countOccGo pat 0 t from rfl]
  rw [if_neg (by simp [h])]
  rfl

theorem patInduction (pat : UStr) (P : UStr → Prop) (h0 : P [])
    (hpos : ∀ c t, pat.isPrefixOf (c :: t) = true → P (t.drop (pat.length - 1)) → P (c :: t))
    (hneg : ∀ c t, pat.isPrefixOf (c :: t) = false → P t → P (c :: t)) :
    ∀ s, P s := by
  have key : ∀ (n : Nat) (s : UStr), s.length ≤ n → P s := by
    intro n
    induction n with
    | zero =>
      intro s hs
      rw [List.length_eq_zero.mp (Nat.le_zero.mp hs)]
      exact h0
    | succ n ih =>
      intro s hs
      match s with
      | [] => exact h0
      | c :: t =>
        simp only [List.length_cons, Nat.add_le_add_iff_right] at hs
        cases hp : pat.isPrefixOf (c :: t) with
        | true =>
          refine hpos c t hp (ih _ ?_)
          simp only [List.length_drop]
          omega
        | false => exact hneg c t hp (ih t hs)
  intro s
  exact key s.length s le_rfl

theorem containsSub_nil (pat : UStr) (hp : pat ≠ []) : containsSub pat [] = false := by
  cases pat with
  | nil => exact absurd rfl hp
  | cons p ps => rfl

theorem splitOnSubPos_ne_nil (pat : UStr) : ∀ s, splitOnSubPos pat s ≠ [] := by
  intro s
  induction s with
  | nil => simp [splitOnSubPos, splitOnSubGo]
  | cons c t ih =>
    cases hp : pat.isPrefixOf (c :: t) with
    | true => rw [splitOnSubPos_cons_pos pat c t hp]; simp
    | false =>
      rw [splitOnSubPos_cons_neg pat c t hp]
      cases h2 : splitOnSubPos pat t <;> simp

theorem joinWith_cons_head (sep : UStr) (c : Nat) (x : UStr) (r : List UStr) :
    joinWith sep ((c :: x) :: r) = c :: joinWith sep (x :: r) := by
  cases r <;> simp [joinWith]

theorem prefix_decompose (pat : UStr) (c : Nat) (t : UStr) (hp : pat ≠ [])
    (h : pat.isPrefixOf (c :: t) = true) :
    pat ++ t.drop (pat.length - 1) = c :: t := by
  obtain ⟨u, hu⟩ := List.isPrefixOf_iff_prefix.mp h
  have hlen : pat.length - 1 + 1 = pat.length := by
    cases pat with
    | nil => exact absurd rfl hp
    | cons p ps => simp
  have hdrop : t.drop (pat.length - 1) = u := by
    have : (c :: t).drop (pat.length - 1 + 1) = u := by
      rw [hlen, ← hu, List.drop_left]
    simpa [List.drop_succ_cons] using this
  rw [hdrop, hu]

theorem joinWith_splitOnSubPos (pat : UStr) (hp : pat ≠ []) :
    ∀ s, joinWith pat (splitOnSubPos pat s) = s := by
  refine patInduction pat _ ?_ ?_ ?_
  · simp [splitOnSubPos, splitOnSubGo, joinWith]
  · intro c t h ih
    rw [splitOnSubPos_cons_pos pat c t h]
    obtain ⟨x, r, hxr⟩ : ∃ x r, splitOnSubPos pat (t.drop (pat.length - 1)) = x :: r := by
      cases h2 : splitOnSubPos pat (t.drop (pat.length - 1)) with
      | nil => exact absurd h2 (splitOnSubPos_ne_nil pat _)
      | cons x r => exact ⟨x, r, rfl⟩
    rw [hxr]
    rw [hxr] at ih
    show [] ++ pat ++ joinWith pat (x :: r) = c :: t
    rw [List.nil_append, ih]
    exact prefix_decompose pat c t hp h
  · intro c t h ih
    rw [splitOnSubPos_cons_neg pat c t h]
    obtain ⟨x, r, hxr⟩ : ∃ x r, splitOnSubPos pat t = x :: r := by
      cases h2 : splitOnSubPos pat t with
      | nil => exact absurd h2 (splitOnSubPos_ne_nil pat _)
      | cons x r => exact ⟨x, r, rfl⟩
    rw [hxr]
    rw [hxr] at ih
    rw [joinWith_cons_head, ih]

theorem replaceAllPos_eq_joinWith (pat rep : UStr) :
    ∀ s, replaceAllPos pat rep s = joinWith rep (splitOnSubPos pat s) := by
  refine patInduction pat _ ?_ ?_ ?_
  · simp [replaceAllPos, replaceAllGo, splitOnSubPos, splitOnSubGo, joinWith]
  · intro c t h ih
    rw [replaceAllPos_cons_pos pat rep c t h, splitOnSubPos_cons_pos pat c t h]
    obtain ⟨x, r, hxr⟩ : ∃ x r, splitOnSubPos pat (t.drop (pat.length - 1)) = x :: r := by
      cases h2 : splitOnSubPos pat (t.drop (pat.length - 1)) with
      | nil => exact absurd h2 (splitOnSubPos_ne_nil pat _)
      | cons x r => exact ⟨x, r, rfl⟩
    rw [hxr]
    rw [hxr] at ih
    show rep ++ replaceAllPos pat rep (t.drop (pat.length - 1)) = [] ++ rep ++ joinWith rep (x :: r)
    rw [List.nil_append, ih]
  · intro c t h ih
    rw [replaceAllPos_cons_neg pat rep c t h, splitOnSubPos_cons_neg pat c t h]
    obtain ⟨x, r, hxr⟩ : ∃ x r, splitOnSubPos pat t = x :: r := by
      cases h2 : splitOnSubPos pat t with
      | nil => exact absurd h2 (splitOnSubPos_ne_nil pat _)
      | cons x r => exact ⟨x, r, rfl⟩
    rw [hxr]
    rw [hxr] at ih
    rw [joinWith_cons_head, ih]

theorem splitOnSubPos_length (pat : UStr) :
    ∀ s, (splitOnSubPos pat s).length = countOccPos pat s + 1 := by
  refine patInduction pat _ ?_ ?_ ?_
  · simp [splitOnSubPos, splitOnSubGo, countOccPos, countOccGo]
  · intro c t h ih
    rw [splitOnSubPos_cons_pos pat c t h, countOccPos_cons_pos pat c t h]
    simpa using ih
  · intro c t h ih
    rw [splitOnSubPos_cons_neg pat c t h, countOccPos_cons_neg pat c t h]
    obtain ⟨x, r, hxr⟩ : ∃ x r, splitOnSubPos pat t = x :: r := by
      cases h2 : splitOnSubPos pat t with
      | nil => exact absurd h2 (splitOnSubPos_ne_nil pat _)
      | cons x r => exact ⟨x, r, rfl⟩
    rw [hxr]
    rw [hxr] at ih
    simpa using ih

theorem splitOnSubPos_head_leading (pat : UStr) :
    ∀ s x r, splitOnSubPos pat s = x :: r → x <+: s := by
  intro s
  induction s with
  | nil =>
    intro x r hxr
    simp only [splitOnSubPos, splitOnSubGo] at hxr
    obtain ⟨hx, hr⟩ := List.cons.inj hxr
    rw [← hx]
  | cons c t ih =>
    intro x r hxr
    cases hp : pat.isPrefixOf (c :: t) with
    | true =>
      rw [splitOnSubPos_cons_pos pat c t hp] at hxr
      obtain ⟨hx, hr⟩ := List.cons.inj hxr
      rw [← hx]
      exact List.nil_prefix
    | false =>
      rw [splitOnSubPos_cons_neg pat c t hp] at hxr
      obtain ⟨x0, r0, hxr0⟩ : ∃ x0 r0, splitOnSubPos pat t = x0 :: r0 := by
        cases h2 : splitOnSubPos pat t with
        | nil => exact absurd h2 (splitOnSubPos_ne_nil pat _)
        | cons x0 r0 => exact ⟨x0, r0, rfl⟩
      rw [hxr0] at hxr
      obtain ⟨hx, hr⟩ := List.cons.inj hxr
      rw [← hx]
      exact List.cons_prefix_cons.mpr ⟨rfl, ih x0 r0 hxr0⟩

theorem splitOnSubPos_segments_free (pat : UStr) (hp : pat ≠ []) :
    ∀ s, ∀ seg ∈ splitOnSubPos pat s, containsSub pat seg = false := by
  refine patInduction pat _ ?_ ?_ ?_
  · intro seg hseg
    simp only [splitOnSubPos, splitOnSubGo, List.mem_singleton] at hseg
    rw [hseg]
    exact containsSub_nil pat hp
  · intro c t h ih seg hseg
    rw [splitOnSubPos_cons_pos pat c t h] at hseg
    rcases List.mem_cons.mp hseg with h1 | h1
    · rw [h1]; exact containsSub_nil pat hp
    · exact ih seg h1
  · intro c t h ih seg hseg
    rw [splitOnSubPos_cons_neg pat c t h] at hseg
    obtain ⟨x0, r0, hxr0⟩ : ∃ x0 r0, splitOnSubPos pat t = x0 :: r0 := by
      cases h2 : splitOnSubPos pat t with
      | nil => exact absurd h2 (splitOnSubPos_ne_nil pat _)
      | cons x0 r0 => exact ⟨x0, r0, rfl⟩
    rw [hxr0] at hseg
    rcases List.mem_cons.mp hseg with h1 | h1
    · rw [h1]
      show (pat.isPrefixOf (c :: x0) || containsSub pat x0) = false
      have hx0 : containsSub pat x0 = false := ih x0 (by rw [hxr0]; exact List.mem_cons_self x0 r0)
      have hpre : pat.isPrefixOf (c :: x0) = false := by
        cases hq : pat.isPrefixOf (c :: x0) with
        | false => rfl
        | true =>
          exfalso
          have h1le : (c :: x0) <+: (c :: t) :=
            List.cons_prefix_cons.mpr ⟨rfl, splitOnSubPos_head_leading pat t x0 r0 hxr0⟩
          have hq2 := List.isPrefixOf_iff_prefix.mp hq
          have h2le : pat <+: (c :: t) := hq2.trans h1le
          rw [← List.isPrefixOf_iff_prefix] at h2le
          rw [h2le] at h
          simp at h
      rw [hx0, hpre]
      rfl
    · exact ih seg (by rw [hxr0]; exact List.mem_cons_of_mem x0 h1)

theorem containsSub_iff_countOccPos (pat : UStr) (hp : pat ≠ []) :
    ∀ s, containsSub pat s = true ↔ 0 < countOccPos pat s := by
  intro s
  induction s with
  | nil =>
    rw [containsSub_nil pat hp]
    simp [countOccPos, countOccGo]
  | cons c t ih =>
    cases hp : pat.isPrefixOf (c :: t) with
    | true =>
      rw [countOccPos_cons_pos pat c t hp]
      constructor
      · intro _; omega
      · intro _
        show (pat.isPrefixOf (c :: t) || containsSub pat t) = true
        rw [hp]
        rfl
    | false =>
      rw [countOccPos_cons_neg pat c t hp]
      show (pat.isPrefixOf (c :: t) || containsSub pat t) = true ↔ _
      rw [hp]
      simpa using ih

theorem handle_connection_parsed (server : Server) (fs : FS) (readBytes : UBytes) (url : UStr)
    (htok : (splitWs (utf8LossyDecode (bufferOf readBytes))).get? 1 = some url) :
    handle_connection server fs readBytes = handleParsed server fs url := by
  simp only [handle_connection]
  rw [htok]

theorem handleParsed_ne_silent (server : Server) (fs : FS) (url : UStr) :
    handleParsed server fs url ≠ ConnResult.silent := by
  unfold handleParsed
  cases get_path url server.std_page server.root_dir fs <;> simp

theorem applyAnchors_append (xs ys : List Anchor) (c : UStr) :
    applyAnchors (xs ++ ys) c =
      ((applyAnchors ys (applyAnchors xs c).1).1,
        (applyAnchors xs c).2 ++ (applyAnchors ys (applyAnchors xs c).1).2) := by
  induction xs generalizing c with
  | nil => simp [applyAnchors]
  | cons a rest ih => simp [applyAnchors, ih]

theorem applyAnchors_counts_length (as : List Anchor) (c : UStr) :
    (applyAnchors as c).2.length = as.length := by
  induction as generalizing c with
  | nil => simp [applyAnchors]
  | cons a rest ih => simp [applyAnchors, ih]

theorem applyAnchors_empty_content (as : List Anchor) (h : ∀ a ∈ as, a.marker ≠ []) :
    applyAnchors as [] = ([], List.replicate as.length 0) := by
  induction as with
  | nil => simp [applyAnchors]
  | cons a rest ih =>
    have ha := h a (List.mem_cons_self a rest)
    have hrest := ih (fun x hx => h x (List.mem_cons_of_mem a hx))
    simp [applyAnchors, anchorStep, containsSub_nil a.marker ha, hrest, List.replicate_succ]

theorem selectedPage_mem (pages : List DynamicPage) (url : UStr) (dp : DynamicPage)
    (h : selectedPage pages url = some dp) : dp ∈ pages := by
  rw [selectedPage_eq_find] at h
  exact List.mem_of_find?_eq_some h

/-- C1 counterexample: the loaded body `"a"` contains `anchorSelf`'s marker
exactly once, the callback (whose result is the marker itself) is invoked
once, every occurrence is replaced — yet the response body still contains
the marker, refuting "the response body contains zero occurrences of the
marker afterwards". -/
theorem marker_in_response_counterexample :
    countOccPos anchorSelf.marker (utf8LossyDecode (strOfString "a")) = 1 ∧
    handle_connection serverSelf fsReadA reqX =
      ConnResult.sent (respond (strOfString "200 OK") (strOfString "a")) [1] ∧
    containsSub anchorSelf.marker (utf8LossyDecode (strOfString "a")) = true := by
  refine ⟨by decide, by decide, by decide⟩

/-- C1 amended: for a matched dynamic page with a single anchor whose
non-empty marker occurs in the decoded body, the handler responds `200 OK`
with the body obtained by replacing every leftmost non-overlapping
occurrence with the result of exactly one callback invocation (the
invocation-count list is `[1]`): the body splits into
`countOccPos + 1` marker-free segments joined by the marker, and the
response body is the same segments joined by the callback's value.
Occurrences can survive only inside that re-joined text (as when the
callback's result contains the marker). -/
theorem substitution_replaces_all_occurrences
    (server : Server) (fs : FS) (readBytes : UBytes) (url : UStr)
    (dp : DynamicPage) (a : Anchor) (body : UBytes)
    (htok : (splitWs (utf8LossyDecode (bufferOf readBytes))).get? 1 = some url)
    (hsel : selectedPage server.dynamic_pages url = some dp)
    (hanch : dp.anchors = [a])
    (hread : fs.read (get_path_spec url server.std_page server.root_dir fs) = some body)
    (hm : a.marker ≠ [])
    (hocc : containsSub a.marker (utf8LossyDecode body) = true) :
    handle_connection server fs readBytes =
      ConnResult.sent
        (respond (strOfString "200 OK")
          (utf8Encode (joinWith (a.function ())
            (splitOnSubPos a.marker (utf8LossyDecode body)))))
        [1] ∧
    joinWith a.marker (splitOnSubPos a.marker (utf8LossyDecode body)) = utf8LossyDecode body ∧
    (splitOnSubPos a.marker (utf8LossyDecode body)).length =
      countOccPos a.marker (utf8LossyDecode body) + 1 ∧
    1 ≤ countOccPos a.marker (utf8LossyDecode body) ∧
    ∀ seg ∈ splitOnSubPos a.marker (utf8LossyDecode body),
      containsSub a.marker seg = false := by
  have hne : url ≠ [] := mem_splitWs_ne_nil _ url (List.get?_mem htok)
  refine ⟨?_, joinWith_splitOnSubPos a.marker hm _, splitOnSubPos_length a.marker _,
    (containsSub_iff_countOccPos a.marker hm _).mp hocc,
    fun seg hseg => splitOnSubPos_segments_free a.marker hm _ seg hseg⟩
  rw [handle_connection_parsed server fs readBytes url htok, handleParsed_eq server fs url hne]
  have hload : loadFile fs (get_path_spec url server.std_page server.root_dir fs) =
      (strOfString "200 OK", body) := by
    simp [loadFile, hread]
  rw [hload]
  have hsub : substitutePhase server url body =
      (utf8Encode (joinWith (a.function ())
        (splitOnSubPos a.marker (utf8LossyDecode body))), [1]) := by
    simp only [substitutePhase, hsel, hanch, applyAnchors, anchorStep, hocc, if_pos]
    have : replaceAll a.marker (a.function ()) (utf8LossyDecode body) =
        joinWith (a.function ()) (splitOnSubPos a.marker (utf8LossyDecode body)) := by
      rw [replaceAll, if_neg hm]
      exact replaceAllPos_eq_joinWith a.marker (a.function ()) _
    simp [this]
  rw [hsub]

/-- Witness for `substitution_replaces_all_occurrences` at a concrete
input. -/
theorem substitution_replaces_all_occurrences_witness :
    handle_connection serverSelf fsReadA reqX =
      ConnResult.sent
        (respond (strOfString "200 OK")
          (utf8Encode (joinWith (anchorSelf.function ())
            (splitOnSubPos anchorSelf.marker (utf8LossyDecode (strOfString "a"))))))
        [1] :=
  (substitution_replaces_all_occurrences serverSelf fsReadA reqX (strOfString "/x")
    pageSelf anchorSelf (strOfString "a")
    (by decide) rfl rfl rfl (by decide) (by decide)).1

/-- C4 counterexample: the resolved path cannot be read, the status is
`404 Not Found`, but the registered dynamic page for `/x` has an anchor
with an empty marker, so the callback output `"X"` is substituted into the
empty body and the response body is not empty. -/
theorem notfound_nonempty_body_counterexample :
    fsEmpty.read (get_path_spec (strOfString "/x") serverEmptyMarker.std_page
      serverEmptyMarker.root_dir fsEmpty) = none ∧
    handle_connection serverEmptyMarker fsEmpty reqX =
      ConnResult.sent (respond (strOfString "404 Not Found") (strOfString "X")) [1] ∧
    strOfString "X" ≠ ([] : UBytes) := by
  refine ⟨rfl, by decide, by decide⟩

/-- C4 amended: when the resolved path cannot be read, the response is
`404 Not Found` with an empty body, provided every registered anchor has a
non-empty marker (an empty marker is contained even in the empty decoded
body and injects its callback's output). -/
theorem notfound_gives_404_empty_body
    (server : Server) (fs : FS) (readBytes : UBytes) (url : UStr)
    (htok : (splitWs (utf8LossyDecode (bufferOf readBytes))).get? 1 = some url)
    (hread : fs.read (get_path_spec url server.std_page server.root_dir fs) = none)
    (hmk : ∀ dp ∈ server.dynamic_pages, ∀ a ∈ dp.anchors, a.marker ≠ []) :
    ∃ invs, handle_connection server fs readBytes =
      ConnResult.sent (respond (strOfString "404 Not Found") []) invs := by
  have hne : url ≠ [] := mem_splitWs_ne_nil _ url (List.get?_mem htok)
  rw [handle_connection_parsed server fs readBytes url htok, handleParsed_eq server fs url hne]
  have hload : loadFile fs (get_path_spec url server.std_page server.root_dir fs) =
      (strOfString "404 Not Found", []) := by
    simp [loadFile, hread]
  rw [hload]
  cases hsel : selectedPage server.dynamic_pages url with
  | none => exact ⟨[], by simp [substitutePhase, hsel]⟩
  | some dp =>
    refine ⟨(applyAnchors dp.anchors []).2, ?_⟩
    have hdp := selectedPage_mem server.dynamic_pages url dp hsel
    have happ := applyAnchors_empty_content dp.anchors (hmk dp hdp)
    simp [substitutePhase, hsel, utf8LossyDecode, happ, utf8Encode]

/-- Witness for `notfound_gives_404_empty_body` at a concrete input. -/
theorem notfound_gives_404_empty_body_witness :
    ∃ invs, handle_connection serverW fsEmpty reqX =
      ConnResult.sent (respond (strOfString "404 Not Found") []) invs :=
  notfound_gives_404_empty_body serverW fsEmpty reqX (strOfString "/x")
    (by decide) rfl
    (by intro dp hdp; simp [serverW, Server.new] at hdp)

/-- C6 counterexample: the loaded decoded content is `"A"`;
`anchorBC`'s marker `"B"` does not occur in it, yet after `anchorAB`
rewrites the content to `"B"`, `anchorBC`'s callback is invoked (its
invocation count is `1`) and it rewrites the content to `"C"` — refuting
"absent from the loaded file content implies not invoked and untouched". -/
theorem absent_from_loaded_still_invoked_counterexample :
    utf8LossyDecode (strOfString "A") = strOfString "A" ∧
    containsSub anchorBC.marker (strOfString "A") = false ∧
    handle_connection serverChain fsReadCapA reqX =
      ConnResult.sent (respond (strOfString "200 OK") (strOfString "C")) [1, 1] := by
  refine ⟨by decide, by decide, by decide⟩

/-- C6 amended: if an anchor's marker does not occur in the content
current at the moment the anchor is processed (the loaded content as
rewritten by the earlier anchors), the anchor's callback is not invoked
(its invocation count is `0`) and dropping the anchor leaves the final
content unchanged. -/
theorem anchor_absent_not_invoked (as1 : List Anchor) (a : Anchor) (as2 : List Anchor)
    (content : UStr)
    (h : containsSub a.marker (applyAnchors as1 content).1 = false) :
    (applyAnchors (as1 ++ a :: as2) content).2[as1.length]? = some 0 ∧
    (applyAnchors (as1 ++ a :: as2) content).1 = (applyAnchors (as1 ++ as2) content).1 := by
  have h1 := applyAnchors_append as1 (a :: as2) content
  have h2 := applyAnchors_append as1 as2 content
  constructor
  · rw [h1]
    rw [List.getElem?_append_right (by rw [applyAnchors_counts_length])]
    simp [applyAnchors_counts_length, applyAnchors, anchorStep, h]
  · rw [h1, h2]
    simp [applyAnchors, anchorStep, h]

/-- Witness for `anchor_absent_not_invoked` at a concrete input. -/
theorem anchor_absent_not_invoked_witness :
    (applyAnchors [anchorAbsent] (strOfString "A")).2[0]? = some 0 ∧
    (applyAnchors [anchorAbsent] (strOfString "A")).1 =
      (applyAnchors [] (strOfString "A")).1 :=
  anchor_absent_not_invoked [] anchorAbsent [] (strOfString "A") (by decide)

/-- C7 counterexample: the request bytes `"GET "` split into a single
whitespace token, yet the handler does write a response (the zero padding
of the 512-byte buffer forms a second token), refuting the claim for the
request's own bytes. -/
theorem silent_drop_counterexample :
    (splitWs (utf8LossyDecode (strOfString "GET "))).length < 2 ∧
    handle_connection serverW fsEmpty (strOfString "GET ") =
      ConnResult.sent (respond (strOfString "404 Not Found") []) [] := by
  refine ⟨by decide, by decide⟩

/-- C7 amended: the handler returns without writing anything exactly when
the decoded 512-byte receive buffer (request bytes plus zero padding)
splits into fewer than two whitespace tokens; NUL padding is not
whitespace, so it can supply the second token for a request whose own
bytes have fewer than two. -/
theorem silent_iff_buffer_tokens_short (server : Server) (fs : FS) (readBytes : UBytes) :
    handle_connection server fs readBytes = ConnResult.silent ↔
      (splitWs (utf8LossyDecode (bufferOf readBytes))).length < 2 := by
  cases htok : (splitWs (utf8LossyDecode (bufferOf readBytes))).get? 1 with
  | none =>
    have hlen := List.get?_eq_none.mp htok
    constructor
    · intro _; omega
    · intro _
      simp only [handle_connection]
      rw [htok]
  | some url =>
    constructor
    · intro hcon
      rw [handle_connection_parsed server fs readBytes url htok] at hcon
      exact absurd hcon (handleParsed_ne_silent server fs url)
    · intro hlen
      have hnone : (splitWs (utf8LossyDecode (bufferOf readBytes))).get? 1 = none :=
        List.get?_eq_none.mpr (by omega)
      rw [htok] at hnone
      cases hnone

/-- C8: every response written is the status line `HTTP/1.1 <status>`
followed by `\r\n\r\n` and then the body bytes, with the status text
either `200 OK` or `404 Not Found` and nothing else in between. -/
theorem response_framing (server : Server) (fs : FS) (readBytes : UBytes)
    (resp : UBytes) (invs : List Nat)
    (h : handle_connection server fs readBytes = ConnResult.sent resp invs) :
    ∃ status body, (status = strOfString "200 OK" ∨ status = strOfString "404 Not Found") ∧
      resp = utf8Encode (strOfString "HTTP/1.1 " ++ status ++ strOfString "\r\n\r\n") ++ body := by
  cases htok : (splitWs (utf8LossyDecode (bufferOf readBytes))).get? 1 with
  | none =>
    simp only [handle_connection] at h
    rw [htok] at h
    cases h
  | some url =>
    rw [handle_connection_parsed server fs readBytes url htok] at h
    unfold handleParsed at h
    cases hp : get_path url server.std_page server.root_dir fs with
    | none => rw [hp] at h; cases h
    | some path =>
      rw [hp] at h
      simp only [ConnResult.sent.injEq] at h
      obtain ⟨h1, h2⟩ := h
      refine ⟨(loadFile fs path).1,
        (substitutePhase server url (loadFile fs path).2).1, ?_, ?_⟩
      · unfold loadFile
        cases fs.read path <;> simp
      · rw [← h1]
        rfl

/-- Witness for `response_framing` at a concrete input. -/
theorem response_framing_witness :
    ∃ status body, (status = strOfString "200 OK" ∨ status = strOfString "404 Not Found") ∧
      respond (strOfString "404 Not Found") [] =
        utf8Encode (strOfString "HTTP/1.1 " ++ status ++ strOfString "\r\n\r\n") ++ body :=
  response_framing serverW fsEmpty reqX (respond (strOfString "404 Not Found") []) []
    (by decide)

theorem ucont_iff (b : Nat) : ucont b = true ↔ 0x80 ≤ b ∧ b ≤ 0xBF := by
  simp [ucont]

theorem utf8Snd_bounds (b0 b1 : Nat) (h : utf8Snd b0 b1 = true) :
    0x80 ≤ b1 ∧ b1 ≤ 0xBF := by
  unfold utf8Snd at h
  split at h
  · simp at h; omega
  · split at h
    · simp at h; omega
    · split at h
      · simp at h; omega
      · split at h
        · simp at h; omega
        · rw [ucont_iff] at h; omega

theorem utf8Snd_of (b0 b1 : Nat) (hb : 0x80 ≤ b1 ∧ b1 ≤ 0xBF)
    (he0 : b0 = 0xE0 → 0xA0 ≤ b1) (hed : b0 = 0xED → b1 ≤ 0x9F)
    (hf0 : b0 = 0xF0 → 0x90 ≤ b1) (hf4 : b0 = 0xF4 → b1 ≤ 0x8F) :
    utf8Snd b0 b1 = true := by
  unfold utf8Snd
  split
  · next h => simp; exact ⟨he0 h, hb.2⟩
  · split
    · next h => simp; exact ⟨hb.1, hed h⟩
    · split
      · next h => simp; exact ⟨hf0 h, hb.2⟩
      · split
        · next h => simp; exact ⟨hb.1, hf4 h⟩
        · rw [ucont_iff]; exact hb

theorem class2_facts (b0 b1 : Nat) (hb0 : (0xC2 ≤ b0 && b0 ≤ 0xDF) = true)
    (h1 : ucont b1 = true) :
    0x80 ≤ dec2 b0 b1 ∧ dec2 b0 b1 < 0x800 ∧ isUSV (dec2 b0 b1) = true := by
  simp only [Bool.and_eq_true, decide_eq_true_eq] at hb0
  rw [ucont_iff] at h1
  unfold dec2
  refine ⟨by omega, by omega, ?_⟩
  simp only [isUSV, Bool.or_eq_true, decide_eq_true_eq]
  left
  omega

theorem class3_facts (b0 b1 b2 : Nat) (hb0 : (0xE0 ≤ b0 && b0 ≤ 0xEF) = true)
    (h1 : utf8Snd b0 b1 = true) (h2 : ucont b2 = true) :
    0x800 ≤ dec3 b0 b1 b2 ∧ dec3 b0 b1 b2 < 0x10000 ∧ isUSV (dec3 b0 b1 b2) = true := by
  simp only [Bool.and_eq_true, decide_eq_true_eq] at hb0
  rw [ucont_iff] at h2
  have hb1 := utf8Snd_bounds b0 b1 h1
  unfold utf8Snd at h1
  unfold dec3
  simp only [isUSV, Bool.or_eq_true, Bool.and_eq_true, decide_eq_true_eq]
  split at h1
  · next he => simp only [Bool.and_eq_true, decide_eq_true_eq] at h1; subst he; omega
  · split at h1
    · next he => simp only [Bool.and_eq_true, decide_eq_true_eq] at h1; subst he; omega
    · split at h1
      · next he =>
        exfalso
        omega
      · split at h1
        · next he =>
          exfalso
          omega
        · next hne0 hned _ _ => omega

theorem class4_facts (b0 b1 b2 b3 : Nat) (hb0 : (0xF0 ≤ b0 && b0 ≤ 0xF4) = true)
    (h1 : utf8Snd b0 b1 = true) (h2 : ucont b2 = true) (h3 : ucont b3 = true) :
    0x10000 ≤ dec4 b0 b1 b2 b3 ∧ dec4 b0 b1 b2 b3 < 0x110000 ∧
      isUSV (dec4 b0 b1 b2 b3) = true := by
  simp only [Bool.and_eq_true, decide_eq_true_eq] at hb0
  rw [ucont_iff] at h2 h3
  have hb1 := utf8Snd_bounds b0 b1 h1
  unfold utf8Snd at h1
  unfold dec4
  simp only [isUSV, Bool.or_eq_true, Bool.and_eq_true, decide_eq_true_eq]
  split at h1
  · next he => exfalso; omega
  · split at h1
    · next he => exfalso; omega
    · split at h1
      · next he =>
        simp only [Bool.and_eq_true, decide_eq_true_eq] at h1
        subst he
        omega
      · split at h1
        · next he =>
          simp only [Bool.and_eq_true, decide_eq_true_eq] at h1
          subst he
          omega
        · next hne0 hned hnf0 hnf4 => omega

theorem encodeChar_ascii (b0 : Nat) (h : b0 < 0x80) : utf8EncodeChar b0 = [b0] := by
  simp [utf8EncodeChar, h]

theorem encodeChar_two (b0 b1 : Nat) (hb0 : (0xC2 ≤ b0 && b0 ≤ 0xDF) = true)
    (h1 : ucont b1 = true) : utf8EncodeChar (dec2 b0 b1) = [b0, b1] := by
  obtain ⟨g1, g2, _⟩ := class2_facts b0 b1 hb0 h1
  simp only [Bool.and_eq_true, decide_eq_true_eq] at hb0
  rw [ucont_iff] at h1
  unfold utf8EncodeChar
  rw [if_neg (by omega), if_pos (by omega)]
  unfold dec2 at *
  simp only [List.cons.injEq, and_true]
  omega

theorem encodeChar_three (b0 b1 b2 : Nat) (hb0 : (0xE0 ≤ b0 && b0 ≤ 0xEF) = true)
    (h1 : utf8Snd b0 b1 = true) (h2 : ucont b2 = true) :
    utf8EncodeChar (dec3 b0 b1 b2) = [b0, b1, b2] := by
  obtain ⟨g1, g2, _⟩ := class3_facts b0 b1 b2 hb0 h1 h2
  simp only [Bool.and_eq_true, decide_eq_true_eq] at hb0
  have hb1 := utf8Snd_bounds b0 b1 h1
  rw [ucont_iff] at h2
  unfold utf8EncodeChar
  rw [if_neg (by omega), if_neg (by omega), if_pos (by omega)]
  unfold dec3 at *
  simp only [List.cons.injEq, and_true]
  omega

theorem encodeChar_four (b0 b1 b2 b3 : Nat) (hb0 : (0xF0 ≤ b0 && b0 ≤ 0xF4) = true)
    (h1 : utf8Snd b0 b1 = true) (h2 : ucont b2 = true) (h3 : ucont b3 = true) :
    utf8EncodeChar (dec4 b0 b1 b2 b3) = [b0, b1, b2, b3] := by
  obtain ⟨g1, g2, _⟩ := class4_facts b0 b1 b2 b3 hb0 h1 h2 h3
  simp only [Bool.and_eq_true, decide_eq_true_eq] at hb0
  have hb1 := utf8Snd_bounds b0 b1 h1
  rw [ucont_iff] at h2 h3
  unfold utf8EncodeChar
  rw [if_neg (by omega), if_neg (by omega), if_neg (by omega)]
  unfold dec4 at *
  simp only [List.cons.injEq, and_true]
  omega

theorem decode_ascii (b0 : Nat) (rest : UBytes) (h : b0 < 0x80) :
    utf8LossyDecode (b0 :: rest) = b0 :: utf8LossyDecode rest := by
  rcases rest with _ | ⟨b1, _ | ⟨b2, _ | ⟨b3, r⟩⟩⟩ <;>
    (simp only [utf8LossyDecode]; rw [if_pos h])

theorem valid_ascii (b0 : Nat) (rest : UBytes) (h : b0 < 0x80) :
    utf8Valid (b0 :: rest) = utf8Valid rest := by
  rcases rest with _ | ⟨b1, _ | ⟨b2, _ | ⟨b3, r⟩⟩⟩ <;> simp [utf8Valid, h]

theorem decode_two (b0 b1 : Nat) (rest : UBytes) (hb0 : (0xC2 ≤ b0 && b0 ≤ 0xDF) = true)
    (h1 : ucont b1 = true) :
    utf8LossyDecode (b0 :: b1 :: rest) = dec2 b0 b1 :: utf8LossyDecode rest := by
  have hlt : ¬ b0 < 0x80 := by
    simp only [Bool.and_eq_true, decide_eq_true_eq] at hb0
    omega
  rcases rest with _ | ⟨b2, _ | ⟨b3, r⟩⟩ <;>
    (simp only [utf8LossyDecode]; rw [if_neg hlt, if_pos hb0, if_pos h1])

theorem valid_two (b0 b1 : Nat) (rest : UBytes) (hb0 : (0xC2 ≤ b0 && b0 ≤ 0xDF) = true)
    (h1 : ucont b1 = true) :
    utf8Valid (b0 :: b1 :: rest) = utf8Valid rest := by
  have hlt : ¬ b0 < 0x80 := by
    simp only [Bool.and_eq_true, decide_eq_true_eq] at hb0
    omega
  rcases rest with _ | ⟨b2, _ | ⟨b3, r⟩⟩ <;>
    (simp only [utf8Valid]; rw [if_neg hlt, if_pos hb0]; simp [h1])

theorem decode_three (b0 b1 b2 : Nat) (rest : UBytes)
    (hb0 : (0xE0 ≤ b0 && b0 ≤ 0xEF) = true) (h1 : utf8Snd b0 b1 = true)
    (h2 : ucont b2 = true) :
    utf8LossyDecode (b0 :: b1 :: b2 :: rest) = dec3 b0 b1 b2 :: utf8LossyDecode rest := by
  have hb : 0xE0 ≤ b0 ∧ b0 ≤ 0xEF := by simpa using hb0
  have hlt : ¬ b0 < 0x80 := by omega
  have hc2 : ¬ (0xC2 ≤ b0 && b0 ≤ 0xDF) = true := by simp; omega
  rcases rest with _ | ⟨b3, r⟩ <;>
    (simp only [utf8LossyDecode]; rw [if_neg hlt, if_neg hc2, if_pos hb0, if_pos h1, if_pos h2])

theorem valid_three (b0 b1 b2 : Nat) (rest : UBytes)
    (hb0 : (0xE0 ≤ b0 && b0 ≤ 0xEF) = true) (h1 : utf8Snd b0 b1 = true)
    (h2 : ucont b2 = true) :
    utf8Valid (b0 :: b1 :: b2 :: rest) = utf8Valid rest := by
  have hb : 0xE0 ≤ b0 ∧ b0 ≤ 0xEF := by simpa using hb0
  have hlt : ¬ b0 < 0x80 := by omega
  have hc2 : ¬ (0xC2 ≤ b0 && b0 ≤ 0xDF) = true := by simp; omega
  rcases rest with _ | ⟨b3, r⟩ <;>
    (simp only [utf8Valid]; rw [if_neg hlt, if_neg hc2, if_pos hb0]; simp [h1, h2])

theorem decode_four (b0 b1 b2 b3 : Nat) (rest : UBytes)
    (hb0 : (0xF0 ≤ b0 && b0 ≤ 0xF4) = true) (h1 : utf8Snd b0 b1 = true)
    (h2 : ucont b2 = true) (h3 : ucont b3 = true) :
    utf8LossyDecode (b0 :: b1 :: b2 :: b3 :: rest) =
      dec4 b0 b1 b2 b3 :: utf8LossyDecode rest := by
  have hb : 0xF0 ≤ b0 ∧ b0 ≤ 0xF4 := by simpa using hb0
  have hlt : ¬ b0 < 0x80 := by omega
  have hc2 : ¬ (0xC2 ≤ b0 && b0 ≤ 0xDF) = true := by simp; omega
  have he : ¬ (0xE0 ≤ b0 && b0 ≤ 0xEF) = true := by simp; omega
  simp only [utf8LossyDecode]
  rw [if_neg hlt, if_neg hc2, if_neg he, if_pos hb0, if_pos h1, if_pos h2, if_pos h3]

theorem valid_four (b0 b1 b2 b3 : Nat) (rest : UBytes)
    (hb0 : (0xF0 ≤ b0 && b0 ≤ 0xF4) = true) (h1 : utf8Snd b0 b1 = true)
    (h2 : ucont b2 = true) (h3 : ucont b3 = true) :
    utf8Valid (b0 :: b1 :: b2 :: b3 :: rest) = utf8Valid rest := by
  have hb : 0xF0 ≤ b0 ∧ b0 ≤ 0xF4 := by simpa using hb0
  have hlt : ¬ b0 < 0x80 := by omega
  have hc2 : ¬ (0xC2 ≤ b0 && b0 ≤ 0xDF) = true := by simp; omega
  have he : ¬ (0xE0 ≤ b0 && b0 ≤ 0xEF) = true := by simp; omega
  simp only [utf8Valid]
  rw [if_neg hlt, if_neg hc2, if_neg he, if_pos hb0]
  simp [h1, h2, h3]

theorem utf8Encode_cons (c : Nat) (s : UStr) :
    utf8Encode (c :: s) = utf8EncodeChar c ++ utf8Encode s := rfl

theorem utf8Encode_append (s1 s2 : UStr) :
    utf8Encode (s1 ++ s2) = utf8Encode s1 ++ utf8Encode s2 := by
  simp [utf8Encode]

theorem utf8_step (b0 : Nat) (rest : UBytes) :
    (∃ c n, n ≤ rest.length ∧
        utf8LossyDecode (b0 :: rest) = c :: utf8LossyDecode (rest.drop n) ∧
        utf8Valid (b0 :: rest) = utf8Valid (rest.drop n) ∧
        utf8EncodeChar c = b0 :: rest.take n ∧ isUSV c = true) ∨
    (∃ m, utf8LossyDecode (b0 :: rest) = 0xFFFD :: utf8LossyDecode (rest.drop m) ∧
        utf8Valid (b0 :: rest) = false) := by
  by_cases ha : b0 < 0x80
  · left
    refine ⟨b0, 0, Nat.zero_le _, ?_, ?_, ?_, ?_⟩
    · rw [decode_ascii b0 rest ha]
      simp
    · rw [valid_ascii b0 rest ha]
      simp
    · rw [encodeChar_ascii b0 ha]
      simp
    · simp [isUSV]
      omega
  · by_cases hc2 : (0xC2 ≤ b0 && b0 ≤ 0xDF) = true
    · match rest with
      | [] =>
        right
        refine ⟨0, ?_, ?_⟩
        · simp only [utf8LossyDecode]
          rw [if_neg ha]
        · simp [utf8Valid, ha]
      | b1 :: rest1 =>
        by_cases h1 : ucont b1 = true
        · left
          refine ⟨dec2 b0 b1, 1, by simp, ?_, ?_, ?_, (class2_facts b0 b1 hc2 h1).2.2⟩
          · rw [decode_two b0 b1 rest1 hc2 h1]
            simp
          · rw [valid_two b0 b1 rest1 hc2 h1]
            simp
          · rw [encodeChar_two b0 b1 hc2 h1]
            simp
        · right
          refine ⟨0, ?_, ?_⟩
          · rcases rest1 with _ | ⟨b2, _ | ⟨b3, r⟩⟩ <;>
              (simp only [utf8LossyDecode]; rw [if_neg ha, if_pos hc2, if_neg h1]; try simp)
          · rcases rest1 with _ | ⟨b2, _ | ⟨b3, r⟩⟩ <;>
              (simp only [utf8Valid]; rw [if_neg ha, if_pos hc2]; simp [h1])
    · by_cases he : (0xE0 ≤ b0 && b0 ≤ 0xEF) = true
      · match rest with
        | [] =>
          right
          refine ⟨0, ?_, ?_⟩
          · simp only [utf8LossyDecode]
            rw [if_neg ha]
          · simp [utf8Valid, ha]
        | b1 :: rest1 =>
          by_cases h1 : utf8Snd b0 b1 = true
          · match rest1 with
            | [] =>
              right
              refine ⟨1, ?_, ?_⟩
              · simp only [utf8LossyDecode]
                rw [if_neg ha, if_neg hc2, if_pos (by simp [he]), if_pos h1]
              · simp only [utf8Valid]
                rw [if_neg ha, if_neg hc2]
            | b2 :: rest2 =>
              by_cases h2 : ucont b2 = true
              · left
                refine ⟨dec3 b0 b1 b2, 2, by simp, ?_, ?_, ?_,
                  (class3_facts b0 b1 b2 he h1 h2).2.2⟩
                · rw [decode_three b0 b1 b2 rest2 he h1 h2]
                  simp
                · rw [valid_three b0 b1 b2 rest2 he h1 h2]
                  simp
                · rw [encodeChar_three b0 b1 b2 he h1 h2]
                  simp
              · right
                refine ⟨1, ?_, ?_⟩
                · rcases rest2 with _ | ⟨b3, r⟩ <;>
                    (simp only [utf8LossyDecode];
                      rw [if_neg ha, if_neg hc2, if_pos he, if_pos h1, if_neg h2]; try simp)
                · rcases rest2 with _ | ⟨b3, r⟩ <;>
                    (simp only [utf8Valid]; rw [if_neg ha, if_neg hc2, if_pos he]; simp [h2])
          · right
            refine ⟨0, ?_, ?_⟩
            · rcases rest1 with _ | ⟨b2, _ | ⟨b3, r⟩⟩
              · simp only [utf8LossyDecode]
                rw [if_neg ha, if_neg hc2, if_pos (by simp [he]), if_neg h1]
                try simp
              · simp only [utf8LossyDecode]
                rw [if_neg ha, if_neg hc2, if_pos he, if_neg h1]
                try simp
              · simp only [utf8LossyDecode]
                rw [if_neg ha, if_neg hc2, if_pos he, if_neg h1]
                try simp
            · rcases rest1 with _ | ⟨b2, _ | ⟨b3, r⟩⟩
              · simp only [utf8Valid]
                rw [if_neg ha, if_neg hc2]
              · simp only [utf8Valid]
                rw [if_neg ha, if_neg hc2, if_pos he]
                simp [h1]
              · simp only [utf8Valid]
                rw [if_neg ha, if_neg hc2, if_pos he]
                simp [h1]
      · by_cases hf : (0xF0 ≤ b0 && b0 ≤ 0xF4) = true
        · match rest with
          | [] =>
            right
            refine ⟨0, ?_, ?_⟩
            · simp only [utf8LossyDecode]
              rw [if_neg ha]
            · simp [utf8Valid, ha]
          | b1 :: rest1 =>
            by_cases h1 : utf8Snd b0 b1 = true
            · match rest1 with
              | [] =>
                right
                refine ⟨1, ?_, ?_⟩
                · simp only [utf8LossyDecode]
                  rw [if_neg ha, if_neg hc2, if_pos (by simp [hf]), if_pos h1]
                · simp only [utf8Valid]
                  rw [if_neg ha, if_neg hc2]
              | b2 :: rest2 =>
                by_cases h2 : ucont b2 = true
                · match rest2 with
                  | [] =>
                    right
                    refine ⟨2, ?_, ?_⟩
                    · simp only [utf8LossyDecode]
                      rw [if_neg ha, if_neg hc2, if_neg he, if_pos hf, if_pos h1, if_pos h2]
                    · simp only [utf8Valid]
                      rw [if_neg ha, if_neg hc2, if_neg he]
                  | b3 :: rest3 =>
                    by_cases h3 : ucont b3 = true
                    · left
                      refine ⟨dec4 b0 b1 b2 b3, 3, by simp, ?_, ?_, ?_,
                        (class4_facts b0 b1 b2 b3 hf h1 h2 h3).2.2⟩
                      · rw [decode_four b0 b1 b2 b3 rest3 hf h1 h2 h3]
                        simp
                      · rw [valid_four b0 b1 b2 b3 rest3 hf h1 h2 h3]
                        simp
                      · rw [encodeChar_four b0 b1 b2 b3 hf h1 h2 h3]
                        simp
                    · right
                      refine ⟨2, ?_, ?_⟩
                      · simp only [utf8LossyDecode]
                        rw [if_neg ha, if_neg hc2, if_neg he, if_pos hf, if_pos h1,
                          if_pos h2, if_neg h3]
                        try simp
                      · simp only [utf8Valid]
                        rw [if_neg ha, if_neg hc2, if_neg he, if_pos hf]
                        simp [h3]
                · right
                  refine ⟨1, ?_, ?_⟩
                  · rcases rest2 with _ | ⟨b3, r⟩
                    · simp only [utf8LossyDecode]
                      rw [if_neg ha, if_neg hc2, if_neg he, if_pos hf, if_pos h1, if_neg h2]
                      try simp
                    · simp only [utf8LossyDecode]
                      rw [if_neg ha, if_neg hc2, if_neg he, if_pos hf, if_pos h1, if_neg h2]
                      try simp
                  · rcases rest2 with _ | ⟨b3, r⟩
                    · simp only [utf8Valid]
                      rw [if_neg ha, if_neg hc2, if_neg he]
                    · simp only [utf8Valid]
                      rw [if_neg ha, if_neg hc2, if_neg he, if_pos hf]
                      simp [h2]
            · right
              refine ⟨0, ?_, ?_⟩
              · rcases rest1 with _ | ⟨b2, _ | ⟨b3, r⟩⟩
                · simp only [utf8LossyDecode]
                  rw [if_neg ha, if_neg hc2, if_pos (by simp [hf]), if_neg h1]
                  try simp
                · simp only [utf8LossyDecode]
                  rw [if_neg ha, if_neg hc2, if_neg he, if_pos hf, if_neg h1]
                  try simp
                · simp only [utf8LossyDecode]
                  rw [if_neg ha, if_neg hc2, if_neg he, if_pos hf, if_neg h1]
                  try simp
              · rcases rest1 with _ | ⟨b2, _ | ⟨b3, r⟩⟩
                · simp only [utf8Valid]
                  rw [if_neg ha, if_neg hc2]
                · simp only [utf8Valid]
                  rw [if_neg ha, if_neg hc2, if_neg he]
                · simp only [utf8Valid]
                  rw [if_neg ha, if_neg hc2, if_neg he, if_pos hf]
                  simp [h1]
        · right
          refine ⟨0, ?_, ?_⟩
          · rcases rest with _ | ⟨b1, _ | ⟨b2, _ | ⟨b3, r⟩⟩⟩
            · simp only [utf8LossyDecode]
              rw [if_neg ha]
            · simp only [utf8LossyDecode]
              rw [if_neg ha, if_neg hc2, if_neg (by simp [he, hf] : ¬ _ = true)]
              try simp
            · simp only [utf8LossyDecode]
              rw [if_neg ha, if_neg hc2, if_neg he, if_neg hf]
              try simp
            · simp only [utf8LossyDecode]
              rw [if_neg ha, if_neg hc2, if_neg he, if_neg hf]
              try simp
          · rcases rest with _ | ⟨b1, _ | ⟨b2, _ | ⟨b3, r⟩⟩⟩
            · simp [utf8Valid, ha]
            · simp only [utf8Valid]
              rw [if_neg ha, if_neg hc2]
            · simp only [utf8Valid]
              rw [if_neg ha, if_neg hc2, if_neg he]
            · simp only [utf8Valid]
              rw [if_neg ha, if_neg hc2, if_neg he, if_neg hf]
              try simp

theorem utf8_roundtrip_of_valid (b : UBytes) (hv : utf8Valid b = true) :
    utf8Encode (utf8LossyDecode b) = b := by
  have key : ∀ (n : Nat) (b : UBytes), b.length ≤ n → utf8Valid b = true →
      utf8Encode (utf8LossyDecode b) = b := by
    intro n
    induction n with
    | zero =>
      intro b hb _
      rw [List.length_eq_zero.mp (Nat.le_zero.mp hb)]
      rfl
    | succ n ih =>
      intro b hb hv
      match b with
      | [] => rfl
      | b0 :: rest =>
        rcases utf8_step b0 rest with ⟨c, k, hk, hdec, hval, henc, _⟩ | ⟨m, _, hval⟩
        · rw [hdec, utf8Encode_cons, henc]
          have hlen : (rest.drop k).length ≤ n := by
            simp only [List.length_cons] at hb
            simp only [List.length_drop]
            omega
          have hvd : utf8Valid (rest.drop k) = true := by rw [← hval]; exact hv
          rw [ih (rest.drop k) hlen hvd]
          simp [List.take_append_drop]
        · rw [hval] at hv
          cases hv
  exact key b.length b le_rfl hv

theorem usv_decode (b : UBytes) : ∀ c ∈ utf8LossyDecode b, isUSV c = true := by
  have key : ∀ (n : Nat) (b : UBytes), b.length ≤ n →
      ∀ c ∈ utf8LossyDecode b, isUSV c = true := by
    intro n
    induction n with
    | zero =>
      intro b hb c hc
      rw [List.length_eq_zero.mp (Nat.le_zero.mp hb)] at hc
      simp [utf8LossyDecode] at hc
    | succ n ih =>
      intro b hb c hc
      match b with
      | [] => simp [utf8LossyDecode] at hc
      | b0 :: rest =>
        simp only [List.length_cons] at hb
        rcases utf8_step b0 rest with ⟨c0, k, hk, hdec, _, _, husv⟩ | ⟨m, hdec, _⟩
        · rw [hdec] at hc
          rcases List.mem_cons.mp hc with h | h
          · rw [h]; exact husv
          · exact ih (rest.drop k) (by simp only [List.length_drop]; omega) c h
        · rw [hdec] at hc
          rcases List.mem_cons.mp hc with h | h
          · rw [h]; decide
          · exact ih (rest.drop m) (by simp only [List.length_drop]; omega) c h
  exact key b.length b le_rfl

theorem encodeChar_valid_prepend (c : Nat) (tail : UBytes) (hc : isUSV c = true) :
    utf8Valid (utf8EncodeChar c ++ tail) = utf8Valid tail := by
  simp only [isUSV, Bool.or_eq_true, Bool.and_eq_true, decide_eq_true_eq] at hc
  by_cases h1 : c < 0x80
  · rw [encodeChar_ascii c h1]
    exact valid_ascii c tail h1
  · by_cases h2 : c < 0x800
    · have henc : utf8EncodeChar c = [0xC0 + c / 0x40, 0x80 + c % 0x40] := by
        unfold utf8EncodeChar
        rw [if_neg h1, if_pos h2]
      rw [henc]
      show utf8Valid ((0xC0 + c / 0x40) :: (0x80 + c % 0x40) :: tail) = _
      apply valid_two
      · simp
        omega
      · rw [ucont_iff]
        omega
    · by_cases h3 : c < 0x10000
      · have henc : utf8EncodeChar c =
            [0xE0 + c / 0x1000, 0x80 + c / 0x40 % 0x40, 0x80 + c % 0x40] := by
          unfold utf8EncodeChar
          rw [if_neg h1, if_neg h2, if_pos h3]
        rw [henc]
        show utf8Valid ((0xE0 + c / 0x1000) :: (0x80 + c / 0x40 % 0x40) ::
          (0x80 + c % 0x40) :: tail) = _
        apply valid_three
        · simp
          omega
        · apply utf8Snd_of
          · constructor <;> omega
          · intro he0
            omega
          · intro hed
            omega
          · intro hf0
            omega
          · intro hf4
            omega
        · rw [ucont_iff]
          omega
      · have h4 : c < 0x110000 := by omega
        have henc : utf8EncodeChar c = [0xF0 + c / 0x40000, 0x80 + c / 0x1000 % 0x40,
            0x80 + c / 0x40 % 0x40, 0x80 + c % 0x40] := by
          unfold utf8EncodeChar
          rw [if_neg h1, if_neg h2, if_neg h3]
        rw [henc]
        show utf8Valid ((0xF0 + c / 0x40000) :: (0x80 + c / 0x1000 % 0x40) ::
          (0x80 + c / 0x40 % 0x40) :: (0x80 + c % 0x40) :: tail) = _
        apply valid_four
        · simp
          omega
        · apply utf8Snd_of
          · constructor <;> omega
          · intro he0
            omega
          · intro hed
            omega
          · intro hf0
            omega
          · intro hf4
            omega
        · rw [ucont_iff]
          omega
        · rw [ucont_iff]
          omega

theorem valid_encode_of_usv (s : UStr) (h : ∀ c ∈ s, isUSV c = true) :
    utf8Valid (utf8Encode s) = true := by
  induction s with
  | nil => rfl
  | cons c t ih =>
    rw [utf8Encode_cons, encodeChar_valid_prepend c _ (h c (List.mem_cons_self c t))]
    exact ih (fun x hx => h x (List.mem_cons_of_mem c hx))

theorem fffd_of_invalid (b : UBytes) (hv : utf8Valid b = false) :
    0xFFFD ∈ utf8LossyDecode b := by
  have key : ∀ (n : Nat) (b : UBytes), b.length ≤ n → utf8Valid b = false →
      0xFFFD ∈ utf8LossyDecode b := by
    intro n
    induction n with
    | zero =>
      intro b hb hv
      rw [List.length_eq_zero.mp (Nat.le_zero.mp hb)] at hv
      cases hv
    | succ n ih =>
      intro b hb hv
      match b with
      | [] => cases hv
      | b0 :: rest =>
        simp only [List.length_cons] at hb
        rcases utf8_step b0 rest with ⟨c0, k, hk, hdec, hval, _, _⟩ | ⟨m, hdec, _⟩
        · rw [hdec]
          refine List.mem_cons_of_mem c0 ?_
          refine ih (rest.drop k) (by simp only [List.length_drop]; omega) ?_
          rw [← hval]
          exact hv
        · rw [hdec]
          exact List.mem_cons_self _ _
  exact key b.length b le_rfl hv

theorem applyAnchors_no_occurrence (as : List Anchor) (c : UStr)
    (h : ∀ a ∈ as, containsSub a.marker c = false) :
    applyAnchors as c = (c, List.replicate as.length 0) := by
  induction as with
  | nil => simp [applyAnchors]
  | cons a rest ih =>
    have ha := h a (List.mem_cons_self a rest)
    have hrest := ih (fun x hx => h x (List.mem_cons_of_mem a hx))
    simp [applyAnchors, anchorStep, ha, hrest, List.replicate_succ]

/-- C10: for a request matching a registered dynamic page none of whose
markers occur in the decoded body, the served body is the UTF-8 lossy
decode of the file re-encoded (the callbacks all stay uninvoked); that
re-encoding equals the raw file bytes exactly when the file is valid
UTF-8, and an invalid file yields a body containing the three-byte UTF-8
encoding `EF BF BD` of U+FFFD. -/
theorem dynamic_page_lossy_reencode
    (server : Server) (fs : FS) (readBytes : UBytes) (url : UStr)
    (dp : DynamicPage) (body : UBytes)
    (htok : (splitWs (utf8LossyDecode (bufferOf readBytes))).get? 1 = some url)
    (hsel : selectedPage server.dynamic_pages url = some dp)
    (hread : fs.read (get_path_spec url server.std_page server.root_dir fs) = some body)
    (habs : ∀ a ∈ dp.anchors, containsSub a.marker (utf8LossyDecode body) = false) :
    handle_connection server fs readBytes =
      ConnResult.sent
        (respond (strOfString "200 OK") (utf8Encode (utf8LossyDecode body)))
        (List.replicate dp.anchors.length 0) ∧
    (utf8Encode (utf8LossyDecode body) = body ↔ utf8Valid body = true) ∧
    (utf8Valid body = false →
      ∃ l1 l2, utf8Encode (utf8LossyDecode body) = l1 ++ [0xEF, 0xBF, 0xBD] ++ l2) := by
  refine ⟨?_, ⟨?_, ?_⟩, ?_⟩
  · have hne : url ≠ [] := mem_splitWs_ne_nil _ url (List.get?_mem htok)
    rw [handle_connection_parsed server fs readBytes url htok, handleParsed_eq server fs url hne]
    have hload : loadFile fs (get_path_spec url server.std_page server.root_dir fs) =
        (strOfString "200 OK", body) := by
      simp [loadFile, hread]
    rw [hload]
    have happ := applyAnchors_no_occurrence dp.anchors (utf8LossyDecode body) habs
    simp [substitutePhase, hsel, happ]
  · intro heq
    rw [← heq]
    exact valid_encode_of_usv _ (usv_decode body)
  · intro hval
    exact utf8_roundtrip_of_valid body hval
  · intro hval
    obtain ⟨s1, s2, hsplit⟩ := List.append_of_mem (fffd_of_invalid body hval)
    refine ⟨utf8Encode s1, utf8Encode s2, ?_⟩
    rw [hsplit, utf8Encode_append, utf8Encode_cons]
    rw [show utf8EncodeChar 0xFFFD = [0xEF, 0xBF, 0xBD] by decide]
    simp [List.append_assoc]

/-- Witness for `dynamic_page_lossy_reencode` at a concrete input: the
file `[0xFF]` is not valid UTF-8, and the served body is the encoding of
U+FFFD. -/
theorem dynamic_page_lossy_reencode_witness :
    handle_connection serverNoHit fsReadFF reqX =
      ConnResult.sent
        (respond (strOfString "200 OK") (utf8Encode (utf8LossyDecode [0xFF])))
        (List.replicate pageNoHit.anchors.length 0) :=
  (dynamic_page_lossy_reencode serverNoHit fsReadFF reqX (strOfString "/x")
    pageNoHit [0xFF] (by decide) rfl rfl (by decide)).1
